import Mathlib

/-!
Shallow embedding of the cache simulator (src/cache.py).

Python-2 specifics mirrored here:
* `/` on non-negative integers is floor division, modelled with `Nat` division;
  `Nat` division by zero yields 0 where Python would raise ZeroDivisionError —
  every claim that depends on a divisor supplies a positivity hypothesis.
* Dictionaries are modelled as association lists in insertion order with
  first-match lookup (an assignment to an existing key is modelled by consing
  the new binding in front of the list, so the lookup sees the new value).
  Python 2 dict iteration order is arbitrary; this model fixes one order,
  which only matters for timestamp ties in the oldest-entry strategy.
* `float` statistics are modelled with `ℚ`; the float division by zero in
  `get_hit_stat` (ZeroDivisionError when `requests == 0`) is modelled by
  returning `none`.
* The durable per-stream log files are modelled as the lists
  `in_cache_file` / `not_in_cache_file` of the integers written to them.
-/

namespace CacheSim

/-- Shared state of the abstract `Cache` base class: sizes, hit/request
counters, the `history` map (keys may be the `-1` sentinel, hence `Int`),
the two in-memory sample buffers with their length counters, and the two
durable log files. -/
structure CacheBase where
  line_size : Nat
  size : Nat
  blocks : Nat
  hits : Nat
  requests : Nat
  history : List (Int × Nat)
  in_cache_len : Nat
  in_cache_history : List Int
  in_cache_file : List Int
  not_in_cache_len : Nat
  not_in_cache_history : List Int
  not_in_cache_file : List Int
deriving DecidableEq

/-- First-match lookup in an association list (dict lookup, `Int` keys). -/
def histLookup : List (Int × Nat) → Int → Option Nat
  | [], _ => none
  | (k, v) :: rest, key => if k = key then some v else histLookup rest key

/-- Dict assignment `history[k] = v`: cons in front so the first-match
lookup sees the new binding. -/
def histInsert (k : Int) (v : Nat) (h : List (Int × Nat)) : List (Int × Nat) :=
  (k, v) :: h

/-- First-match lookup in an association list (dict lookup, `Nat` line keys). -/
def dictLookup : List (Nat × Nat) → Nat → Option Nat
  | [], _ => none
  | (k, v) :: rest, key => if k = key then some v else dictLookup rest key

/-- Dict insertion of a key known to be absent (`cache.update({k: v})` on the
miss path); appended at the end to model insertion order. -/
def dictInsert (k : Nat) (v : Nat) (l : List (Nat × Nat)) : List (Nat × Nat) :=
  l ++ [(k, v)]

/-- Dict deletion `del cache[k]`. -/
def dictRemove (k : Nat) (l : List (Nat × Nat)) : List (Nat × Nat) :=
  l.filter (fun p => p.1 != k)

/-- `Cache.__init__`: counters start at zero, both sample buffers and both
log files are empty, `history` is empty; `blocks = size / line_size`. -/
def initBase (line_size size : Nat) : CacheBase :=
  { line_size := line_size
    size := size
    blocks := size / line_size
    hits := 0
    requests := 0
    history := []
    in_cache_len := 0
    in_cache_history := []
    in_cache_file := []
    not_in_cache_len := 0
    not_in_cache_history := []
    not_in_cache_file := [] }

/-- `Cache.flush(in_cache)`: append the selected in-memory buffer to its
durable log, then clear the buffer and its length counter. -/
def CacheBase.flush (b : CacheBase) (in_cache : Bool) : CacheBase :=
  match in_cache with
  | true =>
    { b with in_cache_file := b.in_cache_file ++ b.in_cache_history
             in_cache_history := []
             in_cache_len := 0 }
  | false =>
    { b with not_in_cache_file := b.not_in_cache_file ++ b.not_in_cache_history
             not_in_cache_history := []
             not_in_cache_len := 0 }

/-- `Cache.add_miss_stat(in_cache, val)`: bump the selected length counter,
append the sample to the selected buffer, and auto-flush once the counter
exceeds 10000. -/
def CacheBase.add_miss_stat (b : CacheBase) (in_cache : Bool) (val : Int) : CacheBase :=
  match in_cache with
  | true =>
    let b1 := { b with in_cache_len := b.in_cache_len + 1
                       in_cache_history := b.in_cache_history ++ [val] }
    if b1.in_cache_len > 10000 then b1.flush true else b1
  | false =>
    let b1 := { b with not_in_cache_len := b.not_in_cache_len + 1
                       not_in_cache_history := b.not_in_cache_history ++ [val] }
    if b1.not_in_cache_len > 10000 then b1.flush false else b1

/-- The conceptual hit-sample stream: durable log followed by the pending
in-memory buffer. -/
def hitStream (b : CacheBase) : List Int :=
  b.in_cache_file ++ b.in_cache_history

/-- The conceptual miss-sample stream: durable log followed by the pending
in-memory buffer. -/
def missStream (b : CacheBase) : List Int :=
  b.not_in_cache_file ++ b.not_in_cache_history

/-- Result record of `Cache.get_hit_stat`. -/
structure HitStat where
  requests : Nat
  hits : Nat
  misses : Int
  miss_chance : ℚ
deriving DecidableEq

/-- `Cache.get_hit_stat`: `misses = requests - hits` and
`miss_chance = misses * 1.0 / requests`.  The Python float division raises
ZeroDivisionError when `requests == 0`; that failure is modelled by `none`. -/
def CacheBase.get_hit_stat (b : CacheBase) : Option HitStat :=
  if b.requests = 0 then none
  else
    some { requests := b.requests
           hits := b.hits
           misses := (b.requests : Int) - (b.hits : Int)
           miss_chance := (((b.requests : Int) - (b.hits : Int) : Int) : ℚ) / (b.requests : ℚ) }

instance decRelFstLe : DecidableRel (fun p q : Int × Nat => p.1 ≤ q.1) :=
  fun p q => Int.decLe p.1 q.1

/-- `sorted(Counter(samples).items())`: frequency-count the sample values and
sort the (value, count) pairs ascending.  The values are distinct after
`dedup`, so sorting by value alone agrees with Python's lexicographic pair
sort. -/
def counterItems (l : List Int) : List (Int × Nat) :=
  List.insertionSort (fun p q : Int × Nat => p.1 ≤ q.1) (l.dedup.map fun v => (v, l.count v))

/-- `Cache.get_extended_stat`: read both durable logs back and
frequency-count them (first component `in_cache`, second `not_in_cache`). -/
def CacheBase.get_extended_stat (b : CacheBase) : List (Int × Nat) × List (Int × Nat) :=
  (counterItems b.in_cache_file, counterItems b.not_in_cache_file)

/-- Total number of samples reported by `get_extended_stat`: the sum of all
counts over both streams. -/
def totalSamples (p : List (Int × Nat) × List (Int × Nat)) : Nat :=
  (p.1.map Prod.snd).sum + (p.2.map Prod.snd).sum

/-- `Cache.get(addr)`, generic in the organization-specific `_in_cache`.
`step` receives the organization state, the shared base (it may read
`requests`, `blocks`, `line_size` and `history`) and the line number, and
returns the verdict, the new organization state and the new `history` —
exactly the fields `_in_cache` may touch in the source.  On a hit the sample
is `requests - history[line_number]` (post-increment `requests`); the source
would raise KeyError if the line were absent from `history` there, which is
unreachable from an initial state (every resident line was recorded by a
previous miss), so the `getD 0` default is never taken on reachable states.
On a miss the sample is `-1` for a first touch, else
`requests - history[line_number]`, and then `history[line_number] = requests`
is recorded. -/
def cacheGet {σ : Type} (step : σ → CacheBase → Nat → Bool × σ × List (Int × Nat))
    (s : σ) (b : CacheBase) (addr : Nat) : Bool × σ × CacheBase :=
  let line := addr / b.line_size
  let res := step s b line
  let b1 : CacheBase := { b with history := res.2.2, requests := b.requests + 1 }
  if res.1 then
    (true, res.2.1,
      CacheBase.add_miss_stat { b1 with hits := b1.hits + 1 } true
        ((b1.requests : Int) - (((histLookup b1.history (line : Int)).getD 0 : Nat) : Int)))
  else
    (false, res.2.1,
      CacheBase.add_miss_stat
        { b1 with history := histInsert (line : Int) b1.requests b1.history } false
        (match histLookup b1.history (line : Int) with
          | none => -1
          | some h => (b1.requests : Int) - (h : Int)))

/-- One `get` call, keeping only the state. -/
def runCache {σ : Type} (step : σ → CacheBase → Nat → Bool × σ × List (Int × Nat))
    (st : σ × CacheBase) (addr : Nat) : σ × CacheBase :=
  ((cacheGet step st.1 st.2 addr).2.1, (cacheGet step st.1 st.2 addr).2.2)

/-- Replay a whole access trace through `get`. -/
def runTrace {σ : Type} (step : σ → CacheBase → Nat → Bool × σ × List (Int × Nat))
    (st : σ × CacheBase) (trace : List Nat) : σ × CacheBase :=
  trace.foldl (runCache step) st

/-- `DirectCache._in_cache`: one line per slot, `slot = line mod blocks`.
If the slot holds the line, hit; otherwise record the previous occupant's
request index into `history` (the pre-increment `requests`), overwrite the
slot, miss.  The slot read is in bounds whenever `blocks > 0` and the slot
list has length `blocks` (an invariant of every reachable state); the `getD`
default `-1` is never used there. -/
def directStep (cache : List Int) (b : CacheBase) (line : Nat) :
    Bool × List Int × List (Int × Nat) :=
  let slot := line % b.blocks
  let v := cache.getD slot (-1)
  if v = (line : Int) then (true, cache, b.history)
  else (false, cache.set slot (line : Int), histInsert v b.requests b.history)

/-- `DirectCache._post_init`: all `blocks` slots hold the `-1` sentinel and
`history[-1] = 0` so the first eviction of an empty slot succeeds. -/
def DirectCache.init (line_size size : Nat) : List Int × CacheBase :=
  let b := initBase line_size size
  (List.replicate b.blocks (-1), { b with history := histInsert (-1) 0 b.history })

/-- Organization state of `FullyAssociativeCache`: the resident map
line ↦ timestamp, its occupancy, and the victim of the most recent miss
(`-1` sentinel when the most recent miss evicted nothing). -/
structure FAState where
  cache : List (Nat × Nat)
  used_size : Nat
  last_replaced : Int
deriving DecidableEq

/-- `oldest_displacement`: `sorted(cache.iteritems(), key=itemgetter(1))[0][0]`,
i.e. the key of an entry with minimal timestamp (the stable sort makes the
tie-break follow the arbitrary dict iteration order, here the model's list
order).  Python raises IndexError on an empty dict; that is unreachable (the
strategy is only invoked at capacity, with `blocks > 0` residents), so the
empty case returns a default. -/
def oldest_displacement (cache : List (Nat × Nat)) : Nat :=
  match cache with
  | [] => 0
  | p :: rest => (rest.foldl (fun q r => if r.2 < q.2 then r else q) p).1

/-- `FullyAssociativeCache._in_cache`: hit iff resident; otherwise insert
under capacity (no eviction, `last_replaced = -1`), or at capacity let the
injected strategy choose a victim, record `history[victim] = requests + 1`,
set `last_replaced`, delete the victim and insert the new line with
timestamp `requests + 1`. -/
def assocStep (strategy : List (Nat × Nat) → Nat) (s : FAState) (b : CacheBase) (line : Nat) :
    Bool × FAState × List (Int × Nat) :=
  if (dictLookup s.cache line).isSome then (true, s, b.history)
  else if s.used_size < b.blocks then
    (false,
      { cache := dictInsert line (b.requests + 1) s.cache
        used_size := s.used_size + 1
        last_replaced := -1 },
      b.history)
  else
    (false,
      { cache := dictInsert line (b.requests + 1) (dictRemove (strategy s.cache) s.cache)
        used_size := s.used_size
        last_replaced := ((strategy s.cache : Nat) : Int) },
      histInsert ((strategy s.cache : Nat) : Int) (b.requests + 1) b.history)

/-- `FullyAssociativeCache` construction: empty resident map, zero occupancy,
`last_replaced = -1`. -/
def FACache.init (line_size size : Nat) : FAState × CacheBase :=
  (⟨[], 0, -1⟩, initBase line_size size)

/-- Organization state of `SetAssociativeCache`: the set partition parameters
and the inner fully-associative caches (each a full cache instance with its
own statistics). -/
structure SAState where
  sets_block_size : Nat
  sets_amount : Nat
  caches : List (FAState × CacheBase)
deriving DecidableEq

/-- `SetAssociativeCache._in_cache`: route to the owning set
`(line / sets_block_size) mod sets_amount`, re-deriving a byte address as
`line * line_size` for the inner cache's `get`; afterwards, if the inner set
reports a victim (`last_replaced ≠ -1`), record it in the outer `history`
at `requests + 1`.  The set index is in bounds whenever `sets_amount` equals
the number of inner caches and is positive (true of every reachable state);
the `getD` default is never used then. -/
def setStep (strategy : List (Nat × Nat) → Nat) (s : SAState) (b : CacheBase) (line : Nat) :
    Bool × SAState × List (Int × Nat) :=
  let set_number := (line / s.sets_block_size) % s.sets_amount
  let inner := (s.caches.get? set_number).getD (FACache.init b.line_size s.sets_block_size)
  let res := cacheGet (assocStep strategy) inner.1 inner.2 (line * b.line_size)
  (res.1,
    { s with caches := s.caches.set set_number (res.2.1, res.2.2) },
    if res.2.1.last_replaced = -1 then b.history
    else histInsert res.2.1.last_replaced (b.requests + 1) b.history)

/-- `SetAssociativeCache._post_init`: `sets_amount` independent inner
fully-associative caches, each sized `size / sets_amount`. -/
def SACache.init (line_size size sets_amount : Nat) : SAState × CacheBase :=
  (⟨size / sets_amount, sets_amount,
    List.replicate sets_amount (FACache.init line_size (size / sets_amount))⟩,
   initBase line_size size)

/-- The linear address allocator (`Memory`): `allocate` returns the old base
and advances it by `size_t * n`. -/
structure Memory where
  base : Nat

/-- `Memory.allocate(size_t, n)`. -/
def Memory.allocate (m : Memory) (size_t n : Nat) : Nat × Memory :=
  (m.base, ⟨m.base + size_t * n⟩)

/-- A `Matrix`: a base address and an element size. -/
structure Matrix where
  base : Nat
  size_t : Nat
deriving DecidableEq

/-- `Matrix.__init__(size_t, n, memory)`: claim `n * n` elements. -/
def Matrix.mk_alloc (size_t n : Nat) (memory : Memory) : Matrix × Memory :=
  let r := memory.allocate size_t (n * n)
  (⟨r.1, size_t⟩, r.2)

/-- `Matrix.get_addr(position)`: row-major flat addressing. -/
def Matrix.get_addr (m : Matrix) (position : Nat) : Nat :=
  m.base + m.size_t * position

/-- The address sequence issued by the trace driver `algo` exactly as coded:
for each `(i, j)` row-major, one access to `C[i*n+j]`, then for each `k`
accesses to `A[i*n+k]`, `B[i*n+k]`, `C[i*n+j]` — note that B is indexed at
`i*n+k`, as in the source. -/
def algoTrace (n : Nat) (a b c : Matrix) : List Nat :=
  (List.range n).flatMap fun i =>
    (List.range n).flatMap fun j =>
      c.get_addr (i * n + j) ::
        ((List.range n).flatMap fun k =>
          [a.get_addr (i * n + k), b.get_addr (i * n + k), c.get_addr (i * n + j)])

/-- The access order asserted by the specification for a C += A×B multiply:
for each `(i, j)` row-major, one access to `C[i,j]`, then for each `k`
accesses to `A[i,k]`, `B[k,j]`, `C[i,j]` — B indexed at `k*n+j`.  Stated
from the spec's words, for comparison with `algoTrace`. -/
def specClaimedTrace (n : Nat) (a b c : Matrix) : List Nat :=
  (List.range n).flatMap fun i =>
    (List.range n).flatMap fun j =>
      c.get_addr (i * n + j) ::
        ((List.range n).flatMap fun k =>
          [a.get_addr (i * n + k), b.get_addr (k * n + j), c.get_addr (i * n + j)])

/-- The three matrices exactly as `try_algo` allocates them: A, then B, then
C, contiguously from address 0. -/
def tryAlgoMatrices (n element_size : Nat) : Matrix × Matrix × Matrix :=
  let m0 : Memory := ⟨0⟩
  let ra := Matrix.mk_alloc element_size n m0
  let rb := Matrix.mk_alloc element_size n ra.2
  let rc := Matrix.mk_alloc element_size n rb.2
  (ra.1, rb.1, rc.1)

/-- The full address trace `try_algo(n, cache)` replays. -/
def tryAlgoTrace (n element_size : Nat) : List Nat :=
  let m := tryAlgoMatrices n element_size
  algoTrace n m.1 m.2.1 m.2.2

/-- The address trace the specification's driver description would produce. -/
def specClaimedTryAlgoTrace (n element_size : Nat) : List Nat :=
  let m := tryAlgoMatrices n element_size
  specClaimedTrace n m.1 m.2.1 m.2.2


/-! ### Basic bookkeeping lemmas -/

theorem flush_fields (b : CacheBase) (ic : Bool) :
    (b.flush ic).line_size = b.line_size ∧ (b.flush ic).blocks = b.blocks ∧
    (b.flush ic).requests = b.requests ∧ (b.flush ic).hits = b.hits ∧
    (b.flush ic).history = b.history := by
  cases ic <;> simp [CacheBase.flush]

theorem flush_streams (b : CacheBase) (ic : Bool) :
    hitStream (b.flush ic) = hitStream b ∧ missStream (b.flush ic) = missStream b := by
  cases ic <;> simp [CacheBase.flush, hitStream, missStream]

theorem add_miss_stat_fields (b : CacheBase) (ic : Bool) (v : Int) :
    (b.add_miss_stat ic v).line_size = b.line_size ∧
    (b.add_miss_stat ic v).blocks = b.blocks ∧
    (b.add_miss_stat ic v).requests = b.requests ∧
    (b.add_miss_stat ic v).hits = b.hits ∧
    (b.add_miss_stat ic v).history = b.history := by
  cases ic <;> simp only [CacheBase.add_miss_stat] <;> split <;>
    simp [CacheBase.flush]

theorem add_miss_stat_hitStream_true (b : CacheBase) (v : Int) :
    hitStream (b.add_miss_stat true v) = hitStream b ++ [v] := by
  simp only [CacheBase.add_miss_stat]
  split <;> simp [CacheBase.flush, hitStream]

theorem add_miss_stat_missStream_true (b : CacheBase) (v : Int) :
    missStream (b.add_miss_stat true v) = missStream b := by
  simp only [CacheBase.add_miss_stat]
  split <;> simp [CacheBase.flush, missStream]

theorem add_miss_stat_hitStream_false (b : CacheBase) (v : Int) :
    hitStream (b.add_miss_stat false v) = hitStream b := by
  simp only [CacheBase.add_miss_stat]
  split <;> simp [CacheBase.flush, hitStream]

theorem add_miss_stat_missStream_false (b : CacheBase) (v : Int) :
    missStream (b.add_miss_stat false v) = missStream b ++ [v] := by
  simp only [CacheBase.add_miss_stat]
  split <;> simp [CacheBase.flush, missStream]

/-! ### Generic facts about `cacheGet` -/

theorem cacheGet_org {σ : Type} (step : σ → CacheBase → Nat → Bool × σ × List (Int × Nat))
    (s : σ) (b : CacheBase) (a : Nat) :
    (cacheGet step s b a).2.1 = (step s b (a / b.line_size)).2.1 := by
  simp only [cacheGet]
  split <;> rfl

theorem cacheGet_verdict {σ : Type} (step : σ → CacheBase → Nat → Bool × σ × List (Int × Nat))
    (s : σ) (b : CacheBase) (a : Nat) :
    (cacheGet step s b a).1 = (step s b (a / b.line_size)).1 := by
  simp only [cacheGet]
  split <;> simp_all

theorem cacheGet_base_fields {σ : Type}
    (step : σ → CacheBase → Nat → Bool × σ × List (Int × Nat))
    (s : σ) (b : CacheBase) (a : Nat) :
    ((cacheGet step s b a).2.2).line_size = b.line_size ∧
    ((cacheGet step s b a).2.2).blocks = b.blocks ∧
    ((cacheGet step s b a).2.2).requests = b.requests + 1 := by
  simp only [cacheGet]
  split <;> simp [add_miss_stat_fields]

theorem cacheGet_hits {σ : Type}
    (step : σ → CacheBase → Nat → Bool × σ × List (Int × Nat))
    (s : σ) (b : CacheBase) (a : Nat) :
    ((cacheGet step s b a).2.2).hits = b.hits + ((cacheGet step s b a).1).toNat := by
  simp only [cacheGet]
  split <;> simp [add_miss_stat_fields, *]

theorem cacheGet_stream_lengths {σ : Type}
    (step : σ → CacheBase → Nat → Bool × σ × List (Int × Nat))
    (s : σ) (b : CacheBase) (a : Nat) :
    (hitStream (cacheGet step s b a).2.2).length +
      (missStream (cacheGet step s b a).2.2).length =
    (hitStream b).length + (missStream b).length + 1 := by
  simp only [cacheGet]
  split
  · simp only [add_miss_stat_hitStream_true, add_miss_stat_missStream_true]
    simp [hitStream, missStream]
    omega
  · simp only [add_miss_stat_hitStream_false, add_miss_stat_missStream_false]
    simp [hitStream, missStream]
    omega


/-! ### Trace-level facts -/

theorem runTrace_nil {σ : Type} (step : σ → CacheBase → Nat → Bool × σ × List (Int × Nat))
    (st : σ × CacheBase) : runTrace step st [] = st := rfl

theorem runTrace_cons {σ : Type} (step : σ → CacheBase → Nat → Bool × σ × List (Int × Nat))
    (st : σ × CacheBase) (a : Nat) (t : List Nat) :
    runTrace step st (a :: t) = runTrace step (runCache step st a) t := rfl

theorem runTrace_append {σ : Type} (step : σ → CacheBase → Nat → Bool × σ × List (Int × Nat))
    (st : σ × CacheBase) (t1 t2 : List Nat) :
    runTrace step st (t1 ++ t2) = runTrace step (runTrace step st t1) t2 := by
  unfold runTrace
  exact List.foldl_append _ _ _ _

theorem runTrace_sizes {σ : Type} (step : σ → CacheBase → Nat → Bool × σ × List (Int × Nat))
    (t : List Nat) : ∀ st : σ × CacheBase,
    ((runTrace step st t).2).line_size = st.2.line_size ∧
    ((runTrace step st t).2).blocks = st.2.blocks ∧
    ((runTrace step st t).2).requests = st.2.requests + t.length := by
  induction t with
  | nil => intro st; simp [runTrace_nil]
  | cons a t ih =>
    intro st
    rw [runTrace_cons]
    rcases ih (runCache step st a) with ⟨h1, h2, h3⟩
    rcases cacheGet_base_fields step st.1 st.2 a with ⟨g1, g2, g3⟩
    refine ⟨?_, ?_, ?_⟩
    · rw [h1]; exact g1
    · rw [h2]; exact g2
    · rw [h3]
      show (cacheGet step st.1 st.2 a).2.2.requests + t.length = st.2.requests + (t.length + 1)
      rw [g3]; omega

theorem runTrace_sample_count {σ : Type}
    (step : σ → CacheBase → Nat → Bool × σ × List (Int × Nat))
    (t : List Nat) : ∀ st : σ × CacheBase,
    (hitStream (runTrace step st t).2).length + (missStream (runTrace step st t).2).length =
      (hitStream st.2).length + (missStream st.2).length + t.length := by
  induction t with
  | nil => intro st; simp [runTrace_nil]
  | cons a t ih =>
    intro st
    rw [runTrace_cons]
    rw [ih (runCache step st a)]
    show (hitStream (cacheGet step st.1 st.2 a).2.2).length +
      (missStream (cacheGet step st.1 st.2 a).2.2).length + t.length = _
    rw [cacheGet_stream_lengths]
    simp only [List.length_cons]
    omega

theorem counterItems_total (l : List Int) :
    ((counterItems l).map Prod.snd).sum = l.length := by
  unfold counterItems
  have hperm : List.Perm
      (List.insertionSort (fun p q : Int × Nat => p.1 ≤ q.1)
        (l.dedup.map fun v => (v, l.count v)))
      (l.dedup.map fun v => (v, l.count v)) :=
    List.perm_insertionSort _ _
  rw [List.Perm.sum_eq (List.Perm.map Prod.snd hperm)]
  rw [List.map_map]
  exact List.sum_map_count_dedup_eq_length l


theorem flush_true_false_files (b : CacheBase) :
    ((b.flush true).flush false).in_cache_file = hitStream b ∧
    ((b.flush true).flush false).not_in_cache_file = missStream b ∧
    ((b.flush true).flush false).requests = b.requests := by
  simp [CacheBase.flush, hitStream, missStream]

/-- Claim C6: for every cache organization (any `_in_cache` step) and every
access trace replayed from a freshly constructed cache, after an explicit
`flush(true)` and `flush(false)` the total sample count reported by
`get_extended_stat` (the sum of all counts over both the `in_cache` and
`not_in_cache` streams) equals `requests` — every `get` call contributed
exactly one sample to exactly one of the two streams. -/
theorem C6_total_sample_count {σ : Type}
    (step : σ → CacheBase → Nat → Bool × σ × List (Int × Nat))
    (s0 : σ) (line_size size : Nat) (trace : List Nat) :
    totalSamples
        ((((runTrace step (s0, initBase line_size size) trace).2.flush true).flush
          false).get_extended_stat) =
      (((runTrace step (s0, initBase line_size size) trace).2.flush true).flush
        false).requests ∧
    (((runTrace step (s0, initBase line_size size) trace).2.flush true).flush
        false).requests = trace.length := by
  have hreq : ((runTrace step (s0, initBase line_size size) trace).2).requests =
      trace.length := by
    have h := (runTrace_sizes step trace (s0, initBase line_size size)).2.2
    simpa [initBase] using h
  have hcount := runTrace_sample_count step trace (s0, initBase line_size size)
  have hinit : (hitStream (initBase line_size size)).length +
      (missStream (initBase line_size size)).length = 0 := by
    simp [initBase, hitStream, missStream]
  rcases flush_true_false_files (runTrace step (s0, initBase line_size size) trace).2 with
    ⟨hf1, hf2, hf3⟩
  simp only [hinit, Nat.zero_add] at hcount
  constructor
  · simp only [CacheBase.get_extended_stat, totalSamples, counterItems_total, hf1, hf2, hf3,
      hreq]
    exact hcount
  · rw [hf3, hreq]


theorem runTrace_hits_le {σ : Type}
    (step : σ → CacheBase → Nat → Bool × σ × List (Int × Nat)) (t : List Nat) :
    ∀ st : σ × CacheBase, st.2.hits ≤ st.2.requests →
      ((runTrace step st t).2).hits ≤ ((runTrace step st t).2).requests := by
  induction t with
  | nil => intro st h; simpa [runTrace_nil] using h
  | cons a t ih =>
    intro st h
    rw [runTrace_cons]
    apply ih
    show ((cacheGet step st.1 st.2 a).2.2).hits ≤ ((cacheGet step st.1 st.2 a).2.2).requests
    rw [cacheGet_hits, (cacheGet_base_fields step st.1 st.2 a).2.2]
    cases (cacheGet step st.1 st.2 a).1 <;> simp <;> omega

/-- Claim C7: for every cache organization (any `_in_cache` step) and every
access trace replayed from a freshly constructed cache, `requests` always
splits as `hits + misses` (with `misses` as reported by `get_hit_stat`), and
whenever `requests > 0` (i.e. `get_hit_stat` returns a record) the reported
`miss_chance` lies between 0 and 1. -/
theorem C7_requests_hits_misses {σ : Type}
    (step : σ → CacheBase → Nat → Bool × σ × List (Int × Nat))
    (s0 : σ) (line_size size : Nat) (trace : List Nat) :
    ((runTrace step (s0, initBase line_size size) trace).2).hits +
        (((runTrace step (s0, initBase line_size size) trace).2).requests -
          ((runTrace step (s0, initBase line_size size) trace).2).hits) =
      ((runTrace step (s0, initBase line_size size) trace).2).requests ∧
    (((runTrace step (s0, initBase line_size size) trace).2).requests ≠ 0 →
      ∃ st : HitStat,
        ((runTrace step (s0, initBase line_size size) trace).2).get_hit_stat = some st ∧
        (st.requests : Int) = (st.hits : Int) + st.misses ∧
        0 ≤ st.miss_chance ∧ st.miss_chance ≤ 1) := by
  have hle : ((runTrace step (s0, initBase line_size size) trace).2).hits ≤
      ((runTrace step (s0, initBase line_size size) trace).2).requests := by
    apply runTrace_hits_le
    simp [initBase]
  refine ⟨by omega, ?_⟩
  intro hne
  refine ⟨_, by rw [CacheBase.get_hit_stat, if_neg hne], ?_, ?_, ?_⟩
  · push_cast
    omega
  · have hql : (0 : ℚ) < ((runTrace step (s0, initBase line_size size) trace).2.requests : ℚ) := by
      exact_mod_cast Nat.pos_of_ne_zero hne
    apply div_nonneg _ (le_of_lt hql)
    push_cast
    have : ((runTrace step (s0, initBase line_size size) trace).2.hits : ℚ) ≤
        ((runTrace step (s0, initBase line_size size) trace).2.requests : ℚ) := by
      exact_mod_cast hle
    linarith
  · have hql : (0 : ℚ) < ((runTrace step (s0, initBase line_size size) trace).2.requests : ℚ) := by
      exact_mod_cast Nat.pos_of_ne_zero hne
    rw [div_le_one hql]
    push_cast
    have : (0 : ℚ) ≤ ((runTrace step (s0, initBase line_size size) trace).2.hits : ℚ) := by
      positivity
    linarith


/-- Claim C5: on every missing `get(addr)` call (any organization), with the
post-increment value of `requests`: the sample appended to the miss stream is
the sentinel `-1` when the line number is absent from `history` (as left by
`_in_cache`), and `requests - history[line_number]` otherwise; the hit stream
is untouched; and afterwards `history[line_number] = requests` holds. -/
theorem C5_miss_sample {σ : Type}
    (step : σ → CacheBase → Nat → Bool × σ × List (Int × Nat))
    (s : σ) (b : CacheBase) (addr : Nat)
    (hmiss : (cacheGet step s b addr).1 = false) :
    missStream (cacheGet step s b addr).2.2 =
      missStream b ++
        [match histLookup ((step s b (addr / b.line_size)).2.2)
            ((addr / b.line_size : Nat) : Int) with
          | none => -1
          | some h => ((b.requests + 1 : Nat) : Int) - (h : Int)] ∧
    hitStream (cacheGet step s b addr).2.2 = hitStream b ∧
    histLookup ((cacheGet step s b addr).2.2).history ((addr / b.line_size : Nat) : Int) =
      some (b.requests + 1) ∧
    ((cacheGet step s b addr).2.2).requests = b.requests + 1 := by
  have hv : (step s b (addr / b.line_size)).1 = false := by
    rw [← cacheGet_verdict]; exact hmiss
  simp only [cacheGet, hv, Bool.false_eq_true, if_false]
  refine ⟨?_, ?_, ?_, ?_⟩
  · rw [add_miss_stat_missStream_false]
    simp [missStream]
  · rw [add_miss_stat_hitStream_false]
    simp [hitStream]
  · rw [(add_miss_stat_fields _ _ _).2.2.2.2]
    simp [histInsert, histLookup]
  · rw [(add_miss_stat_fields _ _ _).2.2.1]


theorem C5_miss_sample_witness :
    (cacheGet directStep (DirectCache.init 1 1).1 (DirectCache.init 1 1).2 0).1 = false ∧
    (missStream (cacheGet directStep (DirectCache.init 1 1).1 (DirectCache.init 1 1).2 0).2.2 =
        [(-1 : Int)] ∧
      hitStream (cacheGet directStep (DirectCache.init 1 1).1 (DirectCache.init 1 1).2 0).2.2 =
        [] ∧
      histLookup
          ((cacheGet directStep (DirectCache.init 1 1).1
            (DirectCache.init 1 1).2 0).2.2).history 0 = some 1 ∧
      ((cacheGet directStep (DirectCache.init 1 1).1 (DirectCache.init 1 1).2 0).2.2).requests =
        1) :=
  ⟨by decide,
   C5_miss_sample directStep (DirectCache.init 1 1).1 (DirectCache.init 1 1).2 0 (by decide)⟩

/-- Claim C8: `get_hit_stat` fails with the division-by-zero condition iff
`requests = 0`; for `requests > 0` it reports exactly `requests`, `hits`,
`misses = requests - hits` and `miss_chance = misses / requests`. -/
theorem C8_hit_stat_zero_division (b : CacheBase) :
    (b.get_hit_stat = none ↔ b.requests = 0) ∧
    (b.requests ≠ 0 →
      b.get_hit_stat =
        some ⟨b.requests, b.hits, (b.requests : Int) - (b.hits : Int),
          ((((b.requests : Int) - (b.hits : Int)) : Int) : ℚ) / (b.requests : ℚ)⟩) := by
  constructor
  · rw [CacheBase.get_hit_stat]
    split <;> simp_all
  · intro hne
    rw [CacheBase.get_hit_stat, if_neg hne]

theorem C8_hit_stat_zero_division_witness :
    (({ initBase 64 3072 with requests := 4, hits := 3 } : CacheBase).get_hit_stat = none ↔
      ({ initBase 64 3072 with requests := 4, hits := 3 } : CacheBase).requests = 0) ∧
    (({ initBase 64 3072 with requests := 4, hits := 3 } : CacheBase).requests ≠ 0 ∧
      ({ initBase 64 3072 with requests := 4, hits := 3 } : CacheBase).get_hit_stat =
        some ⟨4, 3, (4 : Int) - (3 : Int), (((4 : Int) - (3 : Int) : Int) : ℚ) / ((4 : Nat) : ℚ)⟩) :=
  ⟨(C8_hit_stat_zero_division { initBase 64 3072 with requests := 4, hits := 3 }).1,
   by decide,
   (C8_hit_stat_zero_division { initBase 64 3072 with requests := 4, hits := 3 }).2
     (by decide)⟩


theorem C7_requests_hits_misses_witness :
    (((runTrace directStep ((DirectCache.init 1 2).1, initBase 1 2) [0]).2).hits +
        ((((runTrace directStep ((DirectCache.init 1 2).1, initBase 1 2) [0]).2).requests -
          ((runTrace directStep ((DirectCache.init 1 2).1, initBase 1 2) [0]).2).hits)) =
      ((runTrace directStep ((DirectCache.init 1 2).1, initBase 1 2) [0]).2).requests) ∧
    (((runTrace directStep ((DirectCache.init 1 2).1, initBase 1 2) [0]).2).requests ≠ 0 ∧
      ∃ st : HitStat,
        ((runTrace directStep ((DirectCache.init 1 2).1, initBase 1 2) [0]).2).get_hit_stat =
            some st ∧
        (st.requests : Int) = (st.hits : Int) + st.misses ∧
        0 ≤ st.miss_chance ∧ st.miss_chance ≤ 1) :=
  ⟨(C7_requests_hits_misses directStep (DirectCache.init 1 2).1 1 2 [0]).1,
   by decide,
   (C7_requests_hits_misses directStep (DirectCache.init 1 2).1 1 2 [0]).2 (by decide)⟩


/-- Claim C1, settled against the code: for `n = 2`, `element_size = 4` (the
`try_algo` layout: A at base 0, B at base 16, C at base 32), the trace the
driver actually issues departs from the claimed matmul order at access
index 5, the innermost iteration `(i, j, k) = (0, 0, 1)`: the code accesses
address 20 = `B.get_addr(i*n+k)` = B[0,1], while the claimed C += A×B order
requires address 24 = `B.get_addr(k*n+j)` = B[1,0].  The per-iteration shape
and the total count `(3n+1)*n^2 = 28` do hold. -/
theorem C1_driver_b_index :
    tryAlgoTrace 2 4 ≠ specClaimedTryAlgoTrace 2 4 ∧
    (tryAlgoTrace 2 4).get? 5 = some 20 ∧
    (specClaimedTryAlgoTrace 2 4).get? 5 = some 24 ∧
    (tryAlgoTrace 2 4).length = (3 * 2 + 1) * 2 ^ 2 := by
  decide

/-- Claim C2: on a `FullyAssociativeCache` miss (for an arbitrary injected
displacement strategy): the verdict is a miss; under capacity the new line is
inserted with timestamp `requests + 1`, occupancy grows by one,
`last_replaced` is the `-1` sentinel and `history` is untouched; at capacity
the strategy is invoked on the current resident mapping to choose the victim,
`history[victim]` is set to `requests + 1`, `last_replaced` is the victim,
the victim is removed and the new line is inserted with timestamp
`requests + 1`. -/
theorem C2_assoc_miss_behavior (strategy : List (Nat × Nat) → Nat)
    (s : FAState) (b : CacheBase) (line : Nat)
    (hmiss : dictLookup s.cache line = none) :
    (assocStep strategy s b line).1 = false ∧
    dictLookup ((assocStep strategy s b line).2.1).cache line = some (b.requests + 1) ∧
    (s.used_size < b.blocks →
      (assocStep strategy s b line).2.1 =
        ⟨dictInsert line (b.requests + 1) s.cache, s.used_size + 1, -1⟩ ∧
      (assocStep strategy s b line).2.2 = b.history) ∧
    (b.blocks ≤ s.used_size →
      (assocStep strategy s b line).2.1 =
        ⟨dictInsert line (b.requests + 1) (dictRemove (strategy s.cache) s.cache),
          s.used_size, ((strategy s.cache : Nat) : Int)⟩ ∧
      (assocStep strategy s b line).2.2 =
        histInsert ((strategy s.cache : Nat) : Int) (b.requests + 1) b.history) := by
  have hmem : (dictLookup s.cache line).isSome = false := by rw [hmiss]; rfl
  refine ⟨?_, ?_, ?_, ?_⟩
  · rw [assocStep]
    simp only [hmem, Bool.false_eq_true, if_false]
    split <;> rfl
  · rw [assocStep]
    simp only [hmem, Bool.false_eq_true, if_false]
    have hlook : ∀ l : List (Nat × Nat), dictLookup l line = none →
        dictLookup (dictInsert line (b.requests + 1) l) line = some (b.requests + 1) := by
      intro l
      induction l with
      | nil => intro _; simp [dictInsert, dictLookup]
      | cons p rest ih =>
        intro hl
        rw [dictLookup] at hl
        rcases p with ⟨k, v⟩
        by_cases hk : k = line
        · simp [hk] at hl
        · rw [dictInsert, List.cons_append, dictLookup]
          rw [if_neg hk]
          apply ih
          rwa [if_neg hk] at hl
    split
    · exact hlook s.cache hmiss
    · apply hlook
      have : ∀ l : List (Nat × Nat), dictLookup l line = none →
          dictLookup (dictRemove (strategy s.cache) l) line = none := by
        intro l
        induction l with
        | nil => intro _; rfl
        | cons p rest ih =>
          intro hl
          rcases p with ⟨k, v⟩
          rw [dictLookup] at hl
          by_cases hk : k = line
          · simp [hk] at hl
          · rw [if_neg hk] at hl
            rw [dictRemove, List.filter_cons]
            split
            · rw [dictLookup, if_neg hk]
              exact ih hl
            · exact ih hl
      exact this s.cache hmiss
  · intro hcap
    rw [assocStep]
    simp [hmem, Bool.false_eq_true, if_false, if_pos hcap]
  · intro hcap
    rw [assocStep]
    simp [hmem, Bool.false_eq_true, if_false, if_neg (Nat.not_lt.mpr hcap)]

theorem C2_assoc_miss_behavior_witness :
    (dictLookup (⟨[(7, 1), (9, 2)], 2, -1⟩ : FAState).cache 5 = none) ∧
    ((assocStep oldest_displacement ⟨[(7, 1), (9, 2)], 2, -1⟩
        { initBase 1 2 with requests := 2 } 5).1 = false ∧
      dictLookup ((assocStep oldest_displacement ⟨[(7, 1), (9, 2)], 2, -1⟩
          { initBase 1 2 with requests := 2 } 5).2.1).cache 5 = some 3 ∧
      ((⟨[(7, 1), (9, 2)], 2, -1⟩ : FAState).used_size <
          ({ initBase 1 2 with requests := 2 } : CacheBase).blocks →
        (assocStep oldest_displacement ⟨[(7, 1), (9, 2)], 2, -1⟩
            { initBase 1 2 with requests := 2 } 5).2.1 =
          ⟨dictInsert 5 3 [(7, 1), (9, 2)], 3, -1⟩ ∧
        (assocStep oldest_displacement ⟨[(7, 1), (9, 2)], 2, -1⟩
            { initBase 1 2 with requests := 2 } 5).2.2 =
          ({ initBase 1 2 with requests := 2 } : CacheBase).history) ∧
      (({ initBase 1 2 with requests := 2 } : CacheBase).blocks ≤
          (⟨[(7, 1), (9, 2)], 2, -1⟩ : FAState).used_size →
        (assocStep oldest_displacement ⟨[(7, 1), (9, 2)], 2, -1⟩
            { initBase 1 2 with requests := 2 } 5).2.1 =
          ⟨dictInsert 5 3 (dictRemove 7 [(7, 1), (9, 2)]), 2, (7 : Int)⟩ ∧
        (assocStep oldest_displacement ⟨[(7, 1), (9, 2)], 2, -1⟩
            { initBase 1 2 with requests := 2 } 5).2.2 =
          histInsert (7 : Int) 3 ({ initBase 1 2 with requests := 2 } : CacheBase).history)) :=
  ⟨by decide,
   C2_assoc_miss_behavior oldest_displacement ⟨[(7, 1), (9, 2)], 2, -1⟩
     { initBase 1 2 with requests := 2 } 5 (by decide)⟩


/-- Claim C4: a `SetAssociativeCache.get` routes the access to the single
owning set `(line / sets_block_size) mod sets_amount` and leaves the inner
cache of every other set unchanged — lines mapping to different sets never
contend for eviction. -/
theorem C4_set_frame (strategy : List (Nat × Nat) → Nat)
    (s : SAState) (b : CacheBase) (addr j : Nat)
    (hj : j ≠ ((addr / b.line_size) / s.sets_block_size) % s.sets_amount) :
    ((cacheGet (setStep strategy) s b addr).2.1).caches[j]? = s.caches[j]? := by
  rw [cacheGet_org]
  show (s.caches.set (((addr / b.line_size) / s.sets_block_size) % s.sets_amount) _)[j]? =
    s.caches[j]?
  exact List.getElem?_set_ne (fun h => hj h.symm)

theorem C4_set_frame_witness :
    ((1 : Nat) ≠ ((64 / (SACache.init 64 3072 3).2.line_size) /
        (SACache.init 64 3072 3).1.sets_block_size) % (SACache.init 64 3072 3).1.sets_amount) ∧
    ((cacheGet (setStep oldest_displacement) (SACache.init 64 3072 3).1
        (SACache.init 64 3072 3).2 64).2.1).caches[1]? = (SACache.init 64 3072 3).1.caches[1]? :=
  ⟨by decide,
   C4_set_frame oldest_displacement (SACache.init 64 3072 3).1 (SACache.init 64 3072 3).2 64 1
     (by decide)⟩


/-! ### DirectCache facts -/

theorem directStep_cases (cache : List Int) (b : CacheBase) (line : Nat) :
    (directStep cache b line).2.1 = cache ∨
    (directStep cache b line).2.1 = cache.set (line % b.blocks) (line : Int) := by
  rw [directStep]
  split
  · exact Or.inl rfl
  · exact Or.inr rfl

theorem directStep_length (cache : List Int) (b : CacheBase) (line : Nat) :
    ((directStep cache b line).2.1).length = cache.length := by
  rcases directStep_cases cache b line with h | h <;> rw [h]
  simp

theorem directStep_own_slot (cache : List Int) (b : CacheBase) (line : Nat)
    (hlen : cache.length = b.blocks) (hB : 0 < b.blocks) :
    ((directStep cache b line).2.1)[line % b.blocks]? = some (line : Int) := by
  have hlt : line % b.blocks < cache.length := by
    rw [hlen]; exact Nat.mod_lt _ hB
  rw [directStep]
  split
  · rename_i hv
    show cache[line % b.blocks]? = some (line : Int)
    rw [List.getD_eq_getElem?_getD, List.getElem?_eq_getElem hlt] at hv
    rw [List.getElem?_eq_getElem hlt]
    simp only [Option.getD_some] at hv
    rw [hv]
  · show (cache.set (line % b.blocks) (line : Int))[line % b.blocks]? = some (line : Int)
    exact List.getElem?_set_self hlt

theorem directStep_other_slot (cache : List Int) (b : CacheBase) (line sl : Nat)
    (h : sl ≠ line % b.blocks) :
    ((directStep cache b line).2.1)[sl]? = cache[sl]? := by
  rcases directStep_cases cache b line with hc | hc
  · rw [hc]
  · rw [hc]
    exact List.getElem?_set_ne (fun he => h he.symm)

theorem directStep_verdict_of_slot (cache : List Int) (b : CacheBase) (line : Nat)
    (h : cache[line % b.blocks]? = some (line : Int)) :
    (directStep cache b line).1 = true := by
  rw [directStep]
  have hd : cache.getD (line % b.blocks) (-1) = (line : Int) := by
    rw [List.getD_eq_getElem?_getD, h]; rfl
  rw [if_pos hd]


theorem direct_run_length (t : List Nat) : ∀ (cache : List Int) (b : CacheBase),
    ((runTrace directStep (cache, b) t).1).length = cache.length := by
  induction t with
  | nil => intro cache b; rfl
  | cons a t ih =>
    intro cache b
    rw [runTrace_cons]
    rw [ih]
    show ((cacheGet directStep cache b a).2.1).length = cache.length
    rw [cacheGet_org]
    exact directStep_length cache b (a / b.line_size)

theorem direct_run_invariant (B : Nat) (t : List Nat) : ∀ (cache : List Int) (b : CacheBase),
    b.blocks = B → cache.length = B →
    (∀ sl : Nat, ∀ x : Int, cache[sl]? = some x →
      x = -1 ∨ ∃ v : Nat, x = (v : Int) ∧ v % B = sl) →
    ∀ sl : Nat, ∀ x : Int, ((runTrace directStep (cache, b) t).1)[sl]? = some x →
      x = -1 ∨ ∃ v : Nat, x = (v : Int) ∧ v % B = sl := by
  induction t with
  | nil =>
    intro cache b _ _ hinv
    exact hinv
  | cons a t ih =>
    intro cache b hB hlen hinv
    rw [runTrace_cons]
    have hB' : ((cacheGet directStep cache b a).2.2).blocks = B := by
      rw [(cacheGet_base_fields directStep cache b a).2.1, hB]
    have hlen' : ((cacheGet directStep cache b a).2.1).length = B := by
      rw [cacheGet_org, directStep_length, hlen]
    apply ih _ _ hB' hlen'
    intro sl x hx
    rw [cacheGet_org] at hx
    rcases directStep_cases cache b (a / b.line_size) with hc | hc
    · rw [hc] at hx
      exact hinv sl x hx
    · rw [hc] at hx
      by_cases hsl : sl = (a / b.line_size) % b.blocks
      · subst hsl
        have hlt : (a / b.line_size) % b.blocks < cache.length := by
          rcases Nat.eq_zero_or_pos B with h0 | hpos
          · exfalso
            rw [List.getElem?_eq_none (by rw [List.length_set]; omega)] at hx
            exact Option.noConfusion hx
          · rw [hlen, hB]
            exact Nat.mod_lt _ hpos
        rw [List.getElem?_set_self hlt] at hx
        rcases Option.some_inj.mp hx with rfl
        exact Or.inr ⟨a / b.line_size, rfl, by rw [hB]⟩
      · rw [List.getElem?_set_ne (fun he => hsl he.symm)] at hx
        exact hinv sl x hx

/-- Claim C10: after construction and after every trace of `get` calls, the
`DirectCache` slot array has exactly `block_count = size / line_size` slots,
and every slot `sl` holds either the `-1` empty sentinel or a line number `v`
with `v mod block_count = sl` — a line only ever resides in its own slot. -/
theorem C10_direct_slot_invariant (line_size size : Nat) (trace : List Nat) :
    ((runTrace directStep (DirectCache.init line_size size) trace).1).length =
      size / line_size ∧
    ∀ sl : Nat, ∀ x : Int,
      ((runTrace directStep (DirectCache.init line_size size) trace).1)[sl]? = some x →
        x = -1 ∨ ∃ v : Nat, x = (v : Int) ∧ v % (size / line_size) = sl := by
  constructor
  · show ((runTrace directStep ((DirectCache.init line_size size).1,
      (DirectCache.init line_size size).2) trace).1).length = size / line_size
    rw [direct_run_length]
    simp [DirectCache.init, initBase]
  · apply direct_run_invariant (size / line_size) trace
    · simp [DirectCache.init, initBase]
    · simp [DirectCache.init, initBase]
    · intro sl x hx
      have hmem := List.getElem?_mem hx
      have : x = -1 := by
        have := List.eq_of_mem_replicate (by
          simpa [DirectCache.init, initBase] using hmem)
        exact this
      exact Or.inl this

theorem C10_direct_slot_invariant_witness :
    (((runTrace directStep (DirectCache.init 1 2) [3]).1).length = 2 / 1 ∧
      ∀ sl : Nat, ∀ x : Int,
        ((runTrace directStep (DirectCache.init 1 2) [3]).1)[sl]? = some x →
          x = -1 ∨ ∃ v : Nat, x = (v : Int) ∧ v % (2 / 1) = sl) ∧
    (((runTrace directStep (DirectCache.init 1 2) [3]).1)[1]? = some 3 ∧
      ((3 : Int) = -1 ∨ ∃ v : Nat, (3 : Int) = (v : Int) ∧ v % (2 / 1) = 1)) :=
  ⟨C10_direct_slot_invariant 1 2 [3],
   by decide,
   (C10_direct_slot_invariant 1 2 [3]).2 1 3 (by decide)⟩


theorem direct_slot_stable (B ls L : Nat) (t2 : List Nat) :
    ∀ st : List Int × CacheBase,
    st.2.blocks = B → st.2.line_size = ls → st.1.length = B → 0 < B →
    (∀ a ∈ t2, (a / ls) % B = L % B → a / ls = L) →
    st.1[L % B]? = some (L : Int) →
    ((runTrace directStep st t2).1)[L % B]? = some (L : Int) := by
  induction t2 with
  | nil =>
    intro st _ _ _ _ _ hslot
    exact hslot
  | cons a t ih =>
    intro st hB hls hlen hpos hstab hslot
    rw [runTrace_cons]
    have hB' : (runCache directStep st a).2.blocks = B := by
      show ((cacheGet directStep st.1 st.2 a).2.2).blocks = B
      rw [(cacheGet_base_fields directStep st.1 st.2 a).2.1, hB]
    have hls' : (runCache directStep st a).2.line_size = ls := by
      show ((cacheGet directStep st.1 st.2 a).2.2).line_size = ls
      rw [(cacheGet_base_fields directStep st.1 st.2 a).1, hls]
    have hlen' : (runCache directStep st a).1.length = B := by
      show ((cacheGet directStep st.1 st.2 a).2.1).length = B
      rw [cacheGet_org, directStep_length, hlen]
    apply ih _ hB' hls' hlen' hpos (fun x hx hsx => hstab x (List.mem_cons_of_mem a hx) hsx)
    show ((cacheGet directStep st.1 st.2 a).2.1)[L % B]? = some (L : Int)
    rw [cacheGet_org]
    by_cases hsl : (a / ls) % B = L % B
    · have hline : a / ls = L := hstab a (List.mem_cons_self a t) hsl
      rw [hls, hline]
      have h0 := directStep_own_slot st.1 st.2 L (by rw [hlen, hB]) (by rw [hB]; exact hpos)
      rw [hB] at h0
      exact h0
    · have h0 := directStep_other_slot st.1 st.2 (a / st.2.line_size) (L % B)
        (by rw [hls, hB]; exact fun he => hsl he.symm)
      rw [h0]
      exact hslot

/-- Claim C9: in a `DirectCache`, once a line `L` has been accessed, any later
access to `L` hits, provided no intervening access touched a different line
mapping to `L`'s slot (`L mod block_count`).  The trace is
`t1 ++ [a1] ++ t2 ++ [a2]` with `a1`, `a2` both on line `L` and every access
in `t2` that maps to `L`'s slot being an access to `L` itself. -/
theorem C9_direct_rehit (line_size size L : Nat) (t1 t2 : List Nat) (a1 a2 : Nat)
    (hB : 0 < size / line_size)
    (h1 : a1 / line_size = L) (h2 : a2 / line_size = L)
    (ht2 : ∀ a ∈ t2, (a / line_size) % (size / line_size) = L % (size / line_size) →
      a / line_size = L) :
    (cacheGet directStep
      (runTrace directStep (DirectCache.init line_size size) (t1 ++ [a1] ++ t2)).1
      (runTrace directStep (DirectCache.init line_size size) (t1 ++ [a1] ++ t2)).2 a2).1 =
      true := by
  have hinit_sizes := runTrace_sizes directStep t1 (DirectCache.init line_size size)
  have hb0 : (DirectCache.init line_size size).2.blocks = size / line_size := by
    simp [DirectCache.init, initBase]
  have hl0 : (DirectCache.init line_size size).2.line_size = line_size := by
    simp [DirectCache.init, initBase]
  have hlen0 : (DirectCache.init line_size size).1.length = size / line_size := by
    simp [DirectCache.init, initBase]
  rw [runTrace_append, runTrace_append]
  set st0 := runTrace directStep (DirectCache.init line_size size) t1 with hst0
  have hb1 : st0.2.blocks = size / line_size := by rw [(runTrace_sizes _ _ _).2.1, hb0]
  have hl1 : st0.2.line_size = line_size := by rw [(runTrace_sizes _ _ _).1, hl0]
  have hlen1 : st0.1.length = size / line_size := by
    rw [hst0]
    show (runTrace directStep ((DirectCache.init line_size size).1,
      (DirectCache.init line_size size).2) t1).1.length = size / line_size
    rw [direct_run_length, hlen0]
  have hrun1 : runTrace directStep st0 [a1] = runCache directStep st0 a1 := rfl
  rw [hrun1]
  have hb2 : (runCache directStep st0 a1).2.blocks = size / line_size := by
    show ((cacheGet directStep st0.1 st0.2 a1).2.2).blocks = size / line_size
    rw [(cacheGet_base_fields directStep st0.1 st0.2 a1).2.1, hb1]
  have hl2 : (runCache directStep st0 a1).2.line_size = line_size := by
    show ((cacheGet directStep st0.1 st0.2 a1).2.2).line_size = line_size
    rw [(cacheGet_base_fields directStep st0.1 st0.2 a1).1, hl1]
  have hlen2 : (runCache directStep st0 a1).1.length = size / line_size := by
    show ((cacheGet directStep st0.1 st0.2 a1).2.1).length = size / line_size
    rw [cacheGet_org, directStep_length, hlen1]
  have hslot1 : (runCache directStep st0 a1).1[L % (size / line_size)]? = some (L : Int) := by
    show ((cacheGet directStep st0.1 st0.2 a1).2.1)[L % (size / line_size)]? = some (L : Int)
    rw [cacheGet_org, hl1, h1]
    have h0 := directStep_own_slot st0.1 st0.2 L (by rw [hlen1, hb1]) (by rw [hb1]; exact hB)
    rw [hb1] at h0
    exact h0
  have hstab := direct_slot_stable (size / line_size) line_size L t2
    (runCache directStep st0 a1) hb2 hl2 hlen2 hB ht2 hslot1
  set st2 := runTrace directStep (runCache directStep st0 a1) t2 with hst2
  have hb3 : st2.2.blocks = size / line_size := by rw [(runTrace_sizes _ _ _).2.1, hb2]
  have hl3 : st2.2.line_size = line_size := by rw [(runTrace_sizes _ _ _).1, hl2]
  rw [cacheGet_verdict]
  apply directStep_verdict_of_slot
  rw [hl3, h2, hb3]
  exact hstab

theorem C9_direct_rehit_witness :
    (0 < 2 / 1 ∧ (0 : Nat) / 1 = 0 ∧ (0 : Nat) / 1 = 0 ∧
      (∀ a ∈ [(1 : Nat)], (a / 1) % (2 / 1) = 0 % (2 / 1) → a / 1 = 0)) ∧
    (cacheGet directStep
      (runTrace directStep (DirectCache.init 1 2) ([] ++ [0] ++ [1])).1
      (runTrace directStep (DirectCache.init 1 2) ([] ++ [0] ++ [1])).2 0).1 = true :=
  ⟨⟨by decide, by decide, by decide, by decide⟩,
   C9_direct_rehit 1 2 0 [] [1] 0 0 (by decide) (by decide) (by decide) (by decide)⟩


/-! ### FullyAssociativeCache facts -/

theorem dictLookup_append_of_none (c d : List (Nat × Nat)) (x : Nat)
    (h : dictLookup c x = none) : dictLookup (c ++ d) x = dictLookup d x := by
  induction c with
  | nil => rfl
  | cons p rest ih =>
    rcases p with ⟨k, v⟩
    rw [dictLookup] at h
    by_cases hk : k = x
    · rw [if_pos hk] at h
      exact absurd h (by simp)
    · rw [if_neg hk] at h
      rw [List.cons_append, dictLookup, if_neg hk]
      exact ih h

theorem dictLookup_eq_none_of_keys (c : List (Nat × Nat)) (x : Nat)
    (h : ∀ p ∈ c, p.1 ≠ x) : dictLookup c x = none := by
  induction c with
  | nil => rfl
  | cons p rest ih =>
    rcases p with ⟨k, v⟩
    rw [dictLookup, if_neg (h (k, v) (List.mem_cons_self _ _))]
    exact ih (fun q hq => h q (List.mem_cons_of_mem _ hq))

theorem foldl_min_keep (p : Nat × Nat) (l : List (Nat × Nat)) (h : ∀ q ∈ l, p.2 ≤ q.2) :
    l.foldl (fun q r => if r.2 < q.2 then r else q) p = p := by
  induction l with
  | nil => rfl
  | cons r rest ih =>
    rw [List.foldl_cons]
    rw [if_neg (Nat.not_lt.mpr (h r (List.mem_cons_self _ _)))]
    exact ih (fun q hq => h q (List.mem_cons_of_mem _ hq))

theorem mem_range'_ge : ∀ (n s m : Nat), m ∈ List.range' s n → s ≤ m := by
  intro n
  induction n with
  | zero => intro s m h; simp [List.range'] at h
  | succ n ih =>
    intro s m h
    rw [List.range'_succ] at h
    rcases List.mem_cons.mp h with h | h
    · omega
    · have := ih (s + 1) m h
      omega

theorem fa_insert_run (strategy : List (Nat × Nat) → Nat) (W : Nat) (ls : List Nat) :
    ∀ (s : FAState) (b : CacheBase),
    b.line_size = W → 0 < W → ls.Nodup →
    (∀ l ∈ ls, dictLookup s.cache l = none) →
    s.used_size + ls.length ≤ b.blocks →
    ((runTrace (assocStep strategy) (s, b) (ls.map (fun x => x * W))).1).cache =
        s.cache ++ ls.zip (List.range' (b.requests + 1) ls.length) ∧
    ((runTrace (assocStep strategy) (s, b) (ls.map (fun x => x * W))).1).used_size =
        s.used_size + ls.length ∧
    ((runTrace (assocStep strategy) (s, b) (ls.map (fun x => x * W))).2).requests =
        b.requests + ls.length ∧
    ((runTrace (assocStep strategy) (s, b) (ls.map (fun x => x * W))).2).blocks = b.blocks ∧
    ((runTrace (assocStep strategy) (s, b) (ls.map (fun x => x * W))).2).line_size =
        b.line_size := by
  induction ls with
  | nil =>
    intro s b hW hpos hnd hfresh hcap
    simp [runTrace_nil]
  | cons l rest ih =>
    intro s b hW hpos hnd hfresh hcap
    rw [List.map_cons, runTrace_cons]
    have hline : (l * W) / b.line_size = l := by
      rw [hW]
      exact Nat.mul_div_cancel l hpos
    have hmiss : dictLookup s.cache l = none := hfresh l (List.mem_cons_self _ _)
    have hstep : assocStep strategy s b ((l * W) / b.line_size) =
        (false,
          { cache := dictInsert l (b.requests + 1) s.cache
            used_size := s.used_size + 1
            last_replaced := -1 },
          b.history) := by
      rw [hline, assocStep]
      rw [hmiss]
      simp only [Option.isSome_none, Bool.false_eq_true, if_false]
      rw [if_pos (by simp at hcap; omega)]
    have horg : (runCache (assocStep strategy) (s, b) (l * W)).1 =
        { cache := dictInsert l (b.requests + 1) s.cache
          used_size := s.used_size + 1
          last_replaced := -1 } := by
      show (cacheGet (assocStep strategy) s b (l * W)).2.1 = _
      rw [cacheGet_org]
      show (assocStep strategy s b ((l * W) / b.line_size)).2.1 = _
      rw [hstep]
    have hbase := cacheGet_base_fields (assocStep strategy) s b (l * W)
    have hreq' : (runCache (assocStep strategy) (s, b) (l * W)).2.requests =
        b.requests + 1 := hbase.2.2
    have hW' : (runCache (assocStep strategy) (s, b) (l * W)).2.line_size = W := by
      have h := hbase.1
      rw [hW] at h
      exact h
    have hblocks' : (runCache (assocStep strategy) (s, b) (l * W)).2.blocks = b.blocks :=
      hbase.2.1
    have hfresh' : ∀ x ∈ rest,
        dictLookup (runCache (assocStep strategy) (s, b) (l * W)).1.cache x = none := by
      intro x hx
      rw [horg]
      show dictLookup (dictInsert l (b.requests + 1) s.cache) x = none
      rw [dictInsert, dictLookup_append_of_none _ _ _ (hfresh x (List.mem_cons_of_mem _ hx))]
      rw [dictLookup, if_neg (by rintro rfl; exact (List.nodup_cons.mp hnd).1 hx)]
      rfl
    have hcap' : (runCache (assocStep strategy) (s, b) (l * W)).1.used_size + rest.length ≤
        (runCache (assocStep strategy) (s, b) (l * W)).2.blocks := by
      rw [horg, hblocks']
      show s.used_size + 1 + rest.length ≤ b.blocks
      simp at hcap
      omega
    have hih := ih (runCache (assocStep strategy) (s, b) (l * W)).1
      (runCache (assocStep strategy) (s, b) (l * W)).2 hW' hpos
      (List.nodup_cons.mp hnd).2 hfresh' hcap'
    have hpair : ((runCache (assocStep strategy) (s, b) (l * W)).1,
        (runCache (assocStep strategy) (s, b) (l * W)).2) =
        runCache (assocStep strategy) (s, b) (l * W) := rfl
    rw [hpair] at hih
    refine ⟨?_, ?_, ?_, ?_, ?_⟩
    · rw [hih.1, horg, hreq']
      show (dictInsert l (b.requests + 1) s.cache) ++
          rest.zip (List.range' (b.requests + 1 + 1) rest.length) = _
      rw [dictInsert, List.append_assoc]
      rw [List.length_cons, List.range'_succ]
      rw [List.zip_cons_cons]
      rfl
    · rw [hih.2.1, horg]
      show s.used_size + 1 + rest.length = s.used_size + (rest.length + 1)
      omega
    · rw [hih.2.2.1, hreq']
      rw [List.length_cons]
      omega
    · rw [hih.2.2.2.1, hblocks']
    · rw [hih.2.2.2.2]
      exact hbase.1


/-- Claim C3: a `FullyAssociativeCache` with the oldest-entry strategy and
`block_count = B`: after inserting `B` distinct lines and then accessing one
more new line, the evicted line (`last_replaced`) is a line resident before
the final access whose timestamp is minimal among all `B` residents. -/
theorem C3_oldest_evicts_min_timestamp (line_size size B : Nat)
    (hls : 0 < line_size) (hB : size / line_size = B) (hpos : 0 < B)
    (lines : List Nat) (hlen : lines.length = B) (hnd : lines.Nodup)
    (newline : Nat) (hnew : newline ∉ lines) :
    ∃ l t : Nat,
      ((runTrace (assocStep oldest_displacement) (FACache.init line_size size)
          ((lines ++ [newline]).map (fun x => x * line_size))).1).last_replaced = (l : Int) ∧
      dictLookup ((runTrace (assocStep oldest_displacement) (FACache.init line_size size)
          (lines.map (fun x => x * line_size))).1).cache l = some t ∧
      ∀ p ∈ ((runTrace (assocStep oldest_displacement) (FACache.init line_size size)
          (lines.map (fun x => x * line_size))).1).cache, t ≤ p.2 := by
  have hrun := fa_insert_run oldest_displacement line_size lines
    (FACache.init line_size size).1 (FACache.init line_size size).2
    rfl hls hnd (fun x _ => rfl)
    (by
      show 0 + lines.length ≤ (initBase line_size size).blocks
      simp [initBase, hlen, hB])
  have hpair : ((FACache.init line_size size).1, (FACache.init line_size size).2) =
      FACache.init line_size size := rfl
  rw [hpair] at hrun
  have htr : (lines ++ [newline]).map (fun x => x * line_size) =
      lines.map (fun x => x * line_size) ++ [newline * line_size] := by simp
  rw [htr, runTrace_append]
  set stB := runTrace (assocStep oldest_displacement) (FACache.init line_size size)
    (lines.map (fun x => x * line_size)) with hstB
  have hcache : stB.1.cache = lines.zip (List.range' 1 lines.length) := by
    have h := hrun.1
    simpa [FACache.init, initBase] using h
  have hused : stB.1.used_size = lines.length := by
    have h := hrun.2.1
    simpa [FACache.init, initBase] using h
  have hblocks : stB.2.blocks = size / line_size := by
    have h := hrun.2.2.2.1
    simpa [FACache.init, initBase] using h
  have hlsz : stB.2.line_size = line_size := by
    have h := hrun.2.2.2.2
    simpa [FACache.init, initBase] using h
  have hline : (newline * line_size) / stB.2.line_size = newline := by
    rw [hlsz]
    exact Nat.mul_div_cancel _ hls
  have hmiss : dictLookup stB.1.cache newline = none := by
    rw [hcache]
    apply dictLookup_eq_none_of_keys
    rintro ⟨x, u⟩ hp rfl
    exact hnew (List.of_mem_zip hp).1
  have hcap : ¬ stB.1.used_size < stB.2.blocks := by
    rw [hused, hblocks, hlen, hB]
    omega
  have hstep : (assocStep oldest_displacement stB.1 stB.2
      ((newline * line_size) / stB.2.line_size)).2.1.last_replaced =
      ((oldest_displacement stB.1.cache : Nat) : Int) := by
    rw [hline, assocStep, hmiss]
    simp only [Option.isSome_none, Bool.false_eq_true, if_false]
    rw [if_neg hcap]
  obtain ⟨l0, rest, rfl⟩ : ∃ l0 rest, lines = l0 :: rest := by
    cases lines with
    | nil =>
      exfalso
      rw [List.length_nil] at hlen
      omega
    | cons a as => exact ⟨a, as, rfl⟩
  have hcacheB : stB.1.cache = (l0, 1) :: rest.zip (List.range' 2 rest.length) := by
    rw [hcache, List.length_cons, List.range'_succ, List.zip_cons_cons]
  have hvictim : oldest_displacement stB.1.cache = l0 := by
    rw [hcacheB]
    show (List.foldl (fun q r => if r.2 < q.2 then r else q) (l0, 1)
      (rest.zip (List.range' 2 rest.length))).1 = l0
    rw [foldl_min_keep (l0, 1) (rest.zip (List.range' 2 rest.length))
      (by
        rintro ⟨x, u⟩ hq
        have hu := mem_range'_ge _ _ _ (List.of_mem_zip hq).2
        show 1 ≤ u
        omega)]
  refine ⟨l0, 1, ?_, ?_, ?_⟩
  · show ((cacheGet (assocStep oldest_displacement) stB.1 stB.2
      (newline * line_size)).2.1).last_replaced = (l0 : Int)
    rw [cacheGet_org, hstep, hvictim]
  · rw [hcacheB, dictLookup, if_pos rfl]
  · rintro ⟨x, u⟩ hp
    rw [hcache] at hp
    have hu := mem_range'_ge _ _ _ (List.of_mem_zip hp).2
    exact hu

theorem C3_oldest_evicts_min_timestamp_witness :
    (0 < 1 ∧ 2 / 1 = 2 ∧ 0 < 2 ∧ ([5, 7] : List Nat).length = 2 ∧ ([5, 7] : List Nat).Nodup ∧
      (9 : Nat) ∉ ([5, 7] : List Nat)) ∧
    (∃ l t : Nat,
      ((runTrace (assocStep oldest_displacement) (FACache.init 1 2)
          (([5, 7] ++ [9]).map (fun x => x * 1))).1).last_replaced = (l : Int) ∧
      dictLookup ((runTrace (assocStep oldest_displacement) (FACache.init 1 2)
          (([5, 7] : List Nat).map (fun x => x * 1))).1).cache l = some t ∧
      ∀ p ∈ ((runTrace (assocStep oldest_displacement) (FACache.init 1 2)
          (([5, 7] : List Nat).map (fun x => x * 1))).1).cache, t ≤ p.2) :=
  ⟨⟨by decide, by decide, by decide, by decide, by decide, by decide⟩,
   C3_oldest_evicts_min_timestamp 1 2 2 (by decide) (by decide) (by decide) [5, 7]
     (by decide) (by decide) 9 (by decide)⟩

end CacheSim
